import Mathlib

/-!
# Verification of the turkic_transliteration token-language filter,
# masking pipeline, and transliteration registry

Shallow embedding of the decision procedures of
`src/turkic_translit/lang_filter.py` (`is_russian_token`),
`src/turkic_translit/web/web_utils.py` (`mask_russian`), and
`src/turkic_translit/core.py` (`get_supported_languages`, `to_latin`,
`to_ipa`).

Modelling conventions:
* fastText confidences (Python floats) are modelled as rationals `ℚ`;
  all comparisons in the source are order comparisons, faithfully mirrored.
* A classifier oracle is a function `predict : String → ℕ → Except String _`;
  a raised Python exception is modelled as `Except.error msg`.
* Python `str.lower()` is modelled per-character for the scripts the filter
  handles (ASCII and the full Cyrillic block, which covers the Russian and
  Kazakh alphabets); characters outside those ranges are left unchanged.
* Python `len`, list indexing and slicing act on code points, exactly like
  `String.length` / `List` operations on `String.data`.
-/

/-- Python `str.lower()` restricted to code points, acting on the scripts the
filter deals with: ASCII `A`-`Z`, Cyrillic `А`-`Я` (U+0410–U+042F, +0x20),
`Ѐ`-`Џ` (U+0400–U+040F, +0x50, covers `Ё`→`ё` and `І`→`і`), and the paired
uppercase/lowercase Cyrillic extensions (U+0460–U+0481, U+048A–U+052F, even
code point → +1, covers all Kazakh-specific letters). Other characters are
unchanged. -/
def py_lower (c : Char) : Char :=
  let n := c.toNat
  if 0x41 ≤ n ∧ n ≤ 0x5A then Char.ofNat (n + 0x20)
  else if 0x410 ≤ n ∧ n ≤ 0x42F then Char.ofNat (n + 0x20)
  else if 0x400 ≤ n ∧ n ≤ 0x40F then Char.ofNat (n + 0x50)
  else if (0x460 ≤ n ∧ n ≤ 0x481 ∨ 0x48A ≤ n ∧ n ≤ 0x52F) ∧ n % 2 = 0 then
    Char.ofNat (n + 1)
  else c

/-- Python `token.lower()` as used in `lang_filter.py` line 47. -/
def str_lower (s : String) : String := ⟨s.data.map py_lower⟩

/-- `KZ_EXTRA` from `lang_filter.py` line 17: Kazakh letters absent from the
Russian alphabet. -/
def kz_extra : List Char :=
  ['Ә', 'ә', 'Ғ', 'ғ', 'Қ', 'қ', 'Ң', 'ң', 'Ө', 'ө', 'Ұ', 'ұ', 'Ү', 'ү',
   'Һ', 'һ', 'І', 'і']

/-- One character of the `RU_ONLY` regex class `[А-ЯЁа-яё]`
(`lang_filter.py` line 16). -/
def ru_char (c : Char) : Bool :=
  decide ((0x410 ≤ c.toNat ∧ c.toNat ≤ 0x44F) ∨ c.toNat = 0x401 ∨ c.toNat = 0x451)

/-- `RU_ONLY.fullmatch(s) is not None`: the regex `^[А-ЯЁа-яё]+$`. -/
def ru_only (s : String) : Bool := !s.data.isEmpty && s.data.all ru_char

/-- The classifier-oracle capability (`FastTextLike` protocol,
`lang_filter.py` lines 21–24).  `predict text k` returns the ranked labels
and confidences; `Except.error` models a raised exception. -/
structure FastTextLike where
  predict : String → ℕ → Except String (List String × List ℚ)

/-- `is_russian_token` from `lang_filter.py` lines 28–77.
Python defaults: `stoplist = None` (modelled as `[]`), `margin = 0.10`.
The Python code short-circuits on length, stoplist and Kazakh-only letters,
then consults the oracle once with `k = 3`:
* empty labels or confidences → `False` (line 64);
* `labels[0] == "__label__ru" and confs[0] >= thr` → `True` (line 67);
* `"__label__ru" in labels[1:]` and, at `idx = labels.index("__label__ru")`,
  `idx < len(confs) and confs[idx] >= thr and confs[idx] >= confs[0] - margin`
  → `True` (lines 70–74);
* else `thr == 0.0 and RU_ONLY.fullmatch(t)` (line 77). -/
def is_russian_token (token : String) (thr : ℚ) (min_len : ℕ)
    (lid : FastTextLike) (stoplist : List String) (margin : ℚ) :
    Except String Bool :=
  if token.length < min_len then .ok false
  else
    let t := str_lower token
    if t ∈ stoplist then .ok false
    else if t.data.any (fun c => kz_extra.contains c) then .ok false
    else
      match lid.predict t 3 with
      | .error e => .error e
      | .ok (labels, confs) =>
        if labels.isEmpty || confs.isEmpty then .ok false
        else if labels.headD "" = "__label__ru" ∧ thr ≤ confs.headD 0 then
          .ok true
        else
          let idx := labels.findIdx (fun l => l = "__label__ru")
          if "__label__ru" ∈ labels.drop 1 ∧ idx < confs.length ∧
              thr ≤ confs.getD idx 0 ∧ confs.headD 0 - margin ≤ confs.getD idx 0 then
            .ok true
          else
            .ok (decide (thr = 0) && ru_only t)

instance {ε α : Type} [DecidableEq ε] [DecidableEq α] : DecidableEq (Except ε α) :=
  fun a b =>
    match a, b with
    | .error e₁, .error e₂ =>
      if h : e₁ = e₂ then .isTrue (by rw [h]) else .isFalse (by simp [h])
    | .error _, .ok _ => .isFalse (by simp)
    | .ok _, .error _ => .isFalse (by simp)
    | .ok a₁, .ok a₂ =>
      if h : a₁ = a₂ then .isTrue (by rw [h]) else .isFalse (by simp [h])

/-- A stub oracle that always predicts Russian with full confidence. -/
def stub_ru : FastTextLike :=
  ⟨fun _ _ => .ok (["__label__ru", "__label__en", "__label__kk"], [1, 0, 0])⟩

/-! ## Masking pipeline (`web_utils.py`, `mask_russian`, lines 231–291) -/

/-- Python `str.split()` whitespace (ASCII part; exotic Unicode space
characters are not modelled). -/
def py_is_space (c : Char) : Bool :=
  c = ' ' || c = '\t' || c = '\n' || c = '\r' || c = '\x0b' || c = '\x0c'

/-- Worker for Python `text.strip().split()`: split on runs of whitespace,
dropping empty segments.  `cur` is the word currently being accumulated. -/
def split_go (cur : List Char) : List Char → List (List Char)
  | [] => if cur = [] then [] else [cur]
  | c :: rest =>
    if py_is_space c then
      if cur = [] then split_go [] rest else cur :: split_go [] rest
    else
      split_go (cur ++ [c]) rest

/-- Python `text.strip().split()` (`web_utils.py` line 261). -/
def py_split_ws (s : String) : List String :=
  (split_go [] s.data).map String.mk

/-- Python `" ".join(words)` (`web_utils.py` line 279), on character lists. -/
def join_sp : List (List Char) → List Char
  | [] => []
  | [w] => w
  | w :: ws => w ++ ' ' :: join_sp ws

/-- Scanner equivalent to `re.sub(r"\x1b\[[0-9;]*m", "", ·)`
(`web_utils.py` lines 249 and 282): a one-pass state machine whose state
`pending` is the partially matched candidate (`""`, `"\x1b"`, or
`"\x1b[" ++ params`).  On a failed candidate the pending characters are
flushed verbatim; none of them can start a new match except a fresh `\x1b`,
which mirrors the regex engine's rescan behaviour. -/
def strip_go (pending : List Char) : List Char → List Char
  | [] => pending
  | c :: rest =>
    match pending with
    | [] => if c = '\x1b' then strip_go [c] rest else c :: strip_go [] rest
    | [p] =>
      if c = '[' then strip_go [p, c] rest
      else if c = '\x1b' then p :: strip_go [c] rest
      else p :: c :: strip_go [] rest
    | _ =>
      if c.isDigit || c = ';' then strip_go (pending ++ [c]) rest
      else if c = 'm' then strip_go [] rest
      else if c = '\x1b' then pending ++ strip_go [c] rest
      else pending ++ c :: strip_go [] rest

/-- `_ansi_re.sub("", s)`: delete every ANSI colour escape sequence. -/
def ansi_strip (l : List Char) : List Char := strip_go [] l

/-- One per-token debug record (`web_utils.py` lines 270–277). -/
structure DbgRec where
  tok : String
  ru : Bool
  winner : String
  conf : ℚ
deriving DecidableEq

/-- Rendering of one debug record, mirroring the shape of `json.dumps`
output.  String escaping and Python float formatting are not modelled; no
claim depends on the rendered text. -/
def dbg_json (d : DbgRec) : String :=
  "\x7b\"tok\": \"" ++ d.tok ++ "\", \"ru\": " ++ (if d.ru then "true" else "false") ++
    ", \"winner\": \"" ++ d.winner ++ "\", \"conf\": " ++ toString d.conf ++ "\x7d"

/-- `json.dumps(dbg, ensure_ascii=False)` for the list of records. -/
def dbg_json_list (ds : List DbgRec) : String :=
  "[" ++ String.intercalate ", " (ds.map dbg_json) ++ "]"

/-- The markdown error message returned by `mask_russian`'s `except` block
(`web_utils.py` lines 284–291); `e` is `str(e)` of the caught exception. -/
def error_markdown (e : String) : String :=
  "**⚠️ Error in Russian language detection**\n\n" ++
    "The Russian filter feature requires the FastText language identification model.\n" ++
    "Please ensure the model is properly installed and accessible.\n\n" ++
    "Error: " ++ e

/-- The debug-mode body of the masking loop (`web_utils.py` lines 267–277):
call `lid.predict(tok.lower(), k=1)` and build one record from `lbls[0]`
(with the 9-character `__label__` marker stripped) and `confs[0]`; an empty
result raises `IndexError("list index out of range")`.  Without debug no
prediction happens and no record is produced. -/
def dbg_step (lid : FastTextLike) (tok : String) (ru : Bool) (debug : Bool) :
    Except String (List DbgRec) :=
  if debug then
    match lid.predict (str_lower tok) 1 with
    | .error e => .error e
    | .ok (lbls, confs) =>
      if lbls.isEmpty || confs.isEmpty then .error "list index out of range"
      else .ok [⟨tok, ru, (lbls.headD "").drop 9, confs.headD 0⟩]
  else .ok []

/-- The per-token loop of `mask_russian` (`web_utils.py` lines 261–277).
For each token: consult `is_russian_token` (an exception aborts the loop);
append `"<RU>"` or the token; in debug mode additionally run `dbg_step`. -/
def mask_loop (lid : FastTextLike) (thr : ℚ) (min_len : ℕ) (margin : ℚ)
    (debug : Bool) : List String → Except String (List String × List DbgRec)
  | [] => .ok ([], [])
  | tok :: rest =>
    match is_russian_token tok thr min_len lid [] margin with
    | .error e => .error e
    | .ok ru =>
      let masked := if ru then "<RU>" else tok
      match dbg_step lid tok ru debug with
      | .error e => .error e
      | .ok ds =>
        match mask_loop lid thr min_len margin debug rest with
        | .error e => .error e
        | .ok (ms, ds') => .ok (masked :: ms, ds ++ ds')

/-- `mask_russian` from `web_utils.py` lines 231–291.  The singleton fastText
model is passed explicitly as `lid`; `stoplist` is `None` in the source
(line 258).  Any exception from the loop is caught and turned into the
markdown error message (lines 284–291); on success the masked tokens are
joined with single spaces, the debug comment is appended when requested, and
ANSI escape sequences are removed from the result (line 282). -/
def mask_russian (lid : FastTextLike) (text : String) (thr : ℚ) (min_len : ℕ)
    (margin : ℚ) (debug : Bool) : String :=
  match mask_loop lid thr min_len margin debug (py_split_ws text) with
  | .error e => error_markdown e
  | .ok (masked, dbg) =>
    let out := join_sp (masked.map String.data)
    let out := if debug then
        out ++ ("\n\n<!--debug " ++ dbg_json_list dbg ++ " -->").data
      else out
    String.mk (ansi_strip out)

/-- A stub oracle for the spec's concrete masking scenario: Russian at
confidence 0.9 for `привет` and `мир`, English at 0.95 for anything else. -/
def stub_scenario : FastTextLike :=
  ⟨fun t _ =>
    if t = "привет" ∨ t = "мир" then
      .ok (["__label__ru", "__label__en", "__label__kk"],
           [mkRat 9 10, mkRat 1 20, mkRat 3 100])
    else
      .ok (["__label__en", "__label__ru", "__label__kk"],
           [mkRat 19 20, mkRat 1 50, mkRat 1 100])⟩

/-- An oracle stub that models a raised exception on every call. -/
def stub_fail : FastTextLike := ⟨fun _ _ => .error "model not loaded"⟩

/-- Oracle stub for the margin boundary: Russian is rank-2 with confidence
exactly `thr = 1/2` and gap exactly `margin = 1/10`. -/
def stub_margin : FastTextLike :=
  ⟨fun _ _ => .ok (["__label__en", "__label__ru", "__label__kk"],
    [mkRat 3 5, mkRat 1 2, mkRat 1 100])⟩

/-- Oracle stub just past the margin boundary: gap `margin + 1/100`. -/
def stub_margin_eps : FastTextLike :=
  ⟨fun _ _ => .ok (["__label__en", "__label__ru", "__label__kk"],
    [mkRat 61 100, mkRat 1 2, mkRat 1 100])⟩

/-- Oracle stub predicting only non-Russian labels. -/
def stub_en : FastTextLike :=
  ⟨fun _ _ => .ok (["__label__en", "__label__kk", "__label__tr"],
    [mkRat 9 10, mkRat 1 20, mkRat 3 100])⟩

/-- Oracle stub returning an empty prediction. -/
def stub_empty : FastTextLike := ⟨fun _ _ => .ok ([], [])⟩

/-- Oracle stub returning fewer confidences than labels, with the Russian
label's index beyond the confidence list. -/
def stub_confless : FastTextLike :=
  ⟨fun _ _ => .ok (["__label__en", "__label__ru"], [mkRat 9 10])⟩

/-! ## Script/target registry (`core.py`, lines 44–133)

The `.rules` data files are not part of the source tree, so the registry is
modelled as a function of the list `files` of rule-file stems (the names the
directory scan `_RULE_DIR.glob("*.rules")` would produce, without the
`.rules` suffix).  The external ICU transliterator (`_icu_trans(name)
.transliterate`) and Unicode NFC normalization (`unicodedata.normalize`) are
collaborators outside the core and are passed as function parameters. -/

/-- Python `stem.split("_", 1)` restricted to the case `"_" in stem`:
returns the part before the first `'_'` and the remainder. -/
def split_once : List Char → Option (List Char × List Char)
  | [] => none
  | c :: r =>
    if c = '_' then some ([], r)
    else (split_once r).map (fun p => (c :: p.1, p.2))

/-- Format-name normalization (`core.py` lines 62–64):
`lat2023` and `lat` become `latin`. -/
def norm_fmt (fmt : String) : String :=
  if fmt = "lat2023" ∨ fmt = "lat" then "latin" else fmt

/-- Python-dict style insertion on an association list (`core.py` lines
66–69): create the key with a one-element list, or append the format if it
is not yet present.  Insertion order is preserved, like a Python dict. -/
def assoc_add : List (String × List String) → String → String →
    List (String × List String)
  | [], lang, fmt => [(lang, [fmt])]
  | (k, v) :: rest, lang, fmt =>
    if k = lang then (k, if fmt ∈ v then v else v ++ [fmt]) :: rest
    else (k, v) :: assoc_add rest lang fmt

/-- Processing of one rule-file stem (`core.py` lines 54–69): stems without
`'_'` are skipped, otherwise the stem is split once into language and
format, the format is normalized, and the pair is recorded. -/
def add_stem (acc : List (String × List String)) (stem : String) :
    List (String × List String) :=
  match split_once stem.data with
  | none => acc
  | some (l, f) => assoc_add acc (String.mk l) (norm_fmt (String.mk f))

/-- `get_supported_languages` from `core.py` lines 44–71, as a function of
the scanned rule-file stems. -/
def get_supported_languages (files : List String) :
    List (String × List String) :=
  files.foldl add_stem []

/-- Dictionary lookup `supported[lang]` / `lang in supported`. -/
def lookup_fmts : List (String × List String) → String → Option (List String)
  | [], _ => none
  | (k, v) :: rest, lang => if k = lang then some v else lookup_fmts rest lang

/-- `"latin" in supported.get(lang, [])`-style test used by `to_latin`. -/
def fmt_supported (files : List String) (lang fmt : String) : Bool :=
  fmt ∈ (lookup_fmts (get_supported_languages files) lang).getD []

/-- Python string `<`: lexicographic comparison by code point. -/
def chars_lt : List Char → List Char → Bool
  | [], [] => false
  | [], _ :: _ => true
  | _ :: _, [] => false
  | a :: as, b :: bs =>
    if a.toNat < b.toNat then true
    else if b.toNat < a.toNat then false
    else chars_lt as bs

/-- Stable insertion into a sorted list, Python `sorted` order (code-point
lexicographic on strings). -/
def insort (x : String) : List String → List String
  | [] => [x]
  | y :: ys => if chars_lt x.data y.data then x :: y :: ys else y :: insort x ys

/-- Python `sorted(l)` for strings. -/
def py_sorted (l : List String) : List String := l.foldr insort []

/-- Python `", ".join(l)`. -/
def join_commas : List String → String
  | [] => ""
  | [x] => x
  | x :: xs => x ++ ", " ++ join_commas xs

/-- Does `l` start with the pattern `sub`? -/
def starts_with : List Char → List Char → Bool
  | _, [] => true
  | [], _ :: _ => false
  | c :: cs, d :: ds => c = d && starts_with cs ds

/-- Does `msg` contain `sub` as a contiguous substring? -/
def contains_sub : List Char → List Char → Bool
  | [], sub => sub.isEmpty
  | c :: r, sub => starts_with (c :: r) sub || contains_sub r sub

/-- The languages enumerated in `to_latin`'s error message
(`core.py` lines 84–86): those whose format list contains the requested
format. -/
def langs_supporting (files : List String) (fmt : String) : List String :=
  ((get_supported_languages files).filter (fun p => fmt ∈ p.2)).map (·.1)

/-- The `ValueError` message of `core.py` lines 87–90. -/
def latin_unsupported_msg (files : List String) (lang : String) : String :=
  "Latin transliteration not supported for '" ++ lang ++
    "'. Available languages: " ++
    join_commas (py_sorted (langs_supporting files "latin"))

/-- The `ValueError` message of `core.py` lines 123–126. -/
def ipa_unsupported_msg (files : List String) (lang : String) : String :=
  "IPA transliteration not supported for '" ++ lang ++
    "'. Available languages: " ++
    join_commas (py_sorted (langs_supporting files "ipa"))

/-- The property asserted by the spec's words for C9: the failure message of
`resolve` enumerates (mentions) every representation available for the
requested language.  Stated from the spec, for comparison with what the
source-derived `to_latin` / `to_ipa` actually produce. -/
def error_enumerates_lang_formats (files : List String) (lang msg : String) :
    Bool :=
  ((lookup_fmts (get_supported_languages files) lang).getD []).all
    (fun fmt => contains_sub msg.data fmt.data)

/-- `to_latin` from `core.py` lines 80–113.  `icu name text` models
`_icu_trans(name + ".rules").transliterate(text)`; `nfc` models
`unicodedata.normalize("NFC", ·)`.  A `ValueError` is `Except.error` with
the formatted message. -/
def to_latin (files : List String) (icu : String → String → String)
    (nfc : String → String) (text lang : String) (include_arabic : Bool) :
    Except String String :=
  if ¬ fmt_supported files lang "latin" then
    .error (latin_unsupported_msg files lang)
  else
    match [lang ++ "_lat2023", lang ++ "_lat", lang ++ "_latin"].find?
        (fun r => r ∈ files) with
    | none => .error ("No Latin rules file found for language '" ++ lang ++ "'")
    | some rule_file =>
      let text := if include_arabic then icu "ar_lat" text else text
      .ok (nfc (icu rule_file text))

/-- `to_ipa` from `core.py` lines 116–133. -/
def to_ipa (files : List String) (icu : String → String → String)
    (nfc : String → String) (text lang : String) : Except String String :=
  if ¬ fmt_supported files lang "ipa" then
    .error (ipa_unsupported_msg files lang)
  else if ¬ (lang ++ "_ipa") ∈ files then
    .error ("IPA rules file not found for language '" ++ lang ++ "'")
  else
    .ok (nfc (icu (lang ++ "_ipa") text))

/-! ## Basic evaluations of the embedded definitions -/

example : is_russian_token "мир" (mkRat 1 2) 4 stub_ru [] (mkRat 1 10) = .ok false := by
  decide
example : is_russian_token "мирам" (mkRat 1 2) 4 stub_ru [] (mkRat 1 10) = .ok true := by
  decide
example : is_russian_token "сәлем" (mkRat 1 2) 3 stub_ru [] (mkRat 1 10) = .ok false := by
  decide
example : str_lower "ПрИвЕт" = "привет" := by decide
example : ru_only "привет" = true := by decide
example : ru_only "hello" = false := by decide

example : py_split_ws "  привет \n мир hello " = ["привет", "мир", "hello"] := by
  decide
example : py_split_ws "" = [] := by decide

example : ansi_strip "ab\x1b[0mc".data = "abc".data := by decide
example : ansi_strip "a\x1b[12;3mb".data = "ab".data := by decide
example : ansi_strip "a\x1b[12x".data = "a\x1b[12x".data := by decide
example : ansi_strip "a\x1b\x1b[0mb".data = "a\x1bb".data := by decide
example : ansi_strip "a\x1b[mb".data = "ab".data := by decide

example :
    mask_russian stub_scenario "привет мир hello" (mkRat 1 2) 3 (mkRat 1 10) false =
      "<RU> <RU> hello" := by decide

example : py_sorted ["ky", "kk", "tr"] = ["kk", "ky", "tr"] := by decide

example :
    get_supported_languages ["kk_lat2023", "kk_ipa", "ky_lat", "tr_ipa"] =
      [("kk", ["latin", "ipa"]), ("ky", ["latin"]), ("tr", ["ipa"])] := by decide
example :
    to_latin ["tr_ipa", "kk_lat"] (fun _ t => t) (fun t => t) "x" "tr" false =
      .error "Latin transliteration not supported for 'tr'. Available languages: kk" := by
  decide
example :
    to_latin ["tr_ipa", "kk_lat"] (fun _ t => t) (fun t => t) "x" "kk" false =
      .ok "x" := by decide

/-! ## Lowercasing preserves the Russian-Cyrillic character class -/

theorem char_toNat_ofNat (n : ℕ) (h : n < 55296) : (Char.ofNat n).toNat = n := by
  rw [Char.ofNat, dif_pos (Or.inl h)]
  rfl

/-- `py_lower` maps the `RU_ONLY` character class `[А-ЯЁа-яё]` onto itself
and everything else outside it. -/
theorem ru_char_py_lower (c : Char) : ru_char (py_lower c) = ru_char c := by
  unfold py_lower ru_char
  dsimp only
  split_ifs with h1 h2 h3 h4 <;>
    first
      | rfl
      | (rw [char_toNat_ofNat _ (by omega)]; exact decide_eq_decide.mpr (by omega))

/-- The pure-script fallback test on the lowercased token agrees with the
test on the original token. -/
theorem ru_only_lower (s : String) : ru_only (str_lower s) = ru_only s := by
  obtain ⟨data⟩ := s
  unfold ru_only str_lower
  cases data <;> simp [List.all_map, Function.comp_def, ru_char_py_lower]

/-! ## Lemmas about splitting, joining and ANSI stripping -/

/-- Characters of a word produced by the splitter come from the accumulator
or are non-whitespace characters of the input. -/
theorem split_go_mem (l : List Char) : ∀ (cur w : List Char) (c : Char),
    w ∈ split_go cur l → c ∈ w →
    c ∈ cur ∨ (c ∈ l ∧ py_is_space c = false) := by
  induction l with
  | nil =>
    intro cur w c hw hc
    unfold split_go at hw
    by_cases hcur : cur = []
    · rw [if_pos hcur] at hw
      exact absurd hw (List.not_mem_nil w)
    · rw [if_neg hcur] at hw
      rcases List.mem_cons.mp hw with h | h
      · exact Or.inl (h ▸ hc)
      · exact absurd h (List.not_mem_nil w)
  | cons a rest ih =>
    intro cur w c hw hc
    unfold split_go at hw
    by_cases hsp : py_is_space a = true
    · rw [if_pos hsp] at hw
      by_cases hcur : cur = []
      · rw [if_pos hcur] at hw
        rcases ih [] w c hw hc with h | h
        · exact absurd h (List.not_mem_nil c)
        · exact Or.inr ⟨List.mem_cons_of_mem a h.1, h.2⟩
      · rw [if_neg hcur] at hw
        rcases List.mem_cons.mp hw with h | h
        · exact Or.inl (h ▸ hc)
        · rcases ih [] w c h hc with h' | h'
          · exact absurd h' (List.not_mem_nil c)
          · exact Or.inr ⟨List.mem_cons_of_mem a h'.1, h'.2⟩
    · rw [if_neg hsp] at hw
      rcases ih (cur ++ [a]) w c hw hc with h | h
      · rcases List.mem_append.mp h with h' | h'
        · exact Or.inl h'
        · have : c = a := by simpa using h'
          subst this
          exact Or.inr ⟨List.mem_cons_self c rest, Bool.not_eq_true _ ▸ hsp⟩
      · exact Or.inr ⟨List.mem_cons_of_mem a h.1, h.2⟩

/-- Characters of the space-joined word list are spaces or word characters. -/
theorem join_sp_mem : ∀ (ws : List (List Char)) (c : Char),
    c ∈ join_sp ws → c = ' ' ∨ ∃ w ∈ ws, c ∈ w
  | [], c, h => absurd h (List.not_mem_nil c)
  | [w], c, h => Or.inr ⟨w, List.mem_cons_self w [], h⟩
  | w :: w2 :: rest, c, h => by
    unfold join_sp at h
    rcases List.mem_append.mp h with h1 | h2
    · exact Or.inr ⟨w, List.mem_cons_self w _, h1⟩
    · rcases List.mem_cons.mp h2 with h3 | h4
      · exact Or.inl h3
      · rcases join_sp_mem (w2 :: rest) c h4 with h5 | ⟨w', hw', hc'⟩
        · exact Or.inl h5
        · exact Or.inr ⟨w', List.mem_cons_of_mem _ hw', hc'⟩

/-- The ANSI stripper only ever deletes characters. -/
theorem strip_go_mem (l : List Char) : ∀ (pending : List Char) (c : Char),
    c ∈ strip_go pending l → c ∈ pending ∨ c ∈ l := by
  induction l with
  | nil =>
    intro pending c h
    rw [strip_go] at h
    exact Or.inl h
  | cons a rest ih =>
    intro pending c h
    rcases pending with _ | ⟨p, _ | ⟨q, ps⟩⟩ <;> simp only [strip_go] at h
    · by_cases ha : a = '\x1b'
      · rw [if_pos ha] at h
        rcases ih [a] c h with h' | h'
        · exact Or.inr (List.mem_cons.mpr (Or.inl (by simpa using h')))
        · exact Or.inr (List.mem_cons_of_mem a h')
      · rw [if_neg ha] at h
        rcases List.mem_cons.mp h with h' | h'
        · exact Or.inr (List.mem_cons.mpr (Or.inl h'))
        · rcases ih [] c h' with h'' | h''
          · exact absurd h'' (List.not_mem_nil c)
          · exact Or.inr (List.mem_cons_of_mem a h'')
    · by_cases hbr : a = '['
      · rw [if_pos hbr] at h
        rcases ih [p, a] c h with h' | h'
        · rcases List.mem_cons.mp h' with h'' | h''
          · exact Or.inl (List.mem_cons.mpr (Or.inl h''))
          · exact Or.inr (List.mem_cons.mpr (Or.inl (by simpa using h'')))
        · exact Or.inr (List.mem_cons_of_mem a h')
      · rw [if_neg hbr] at h
        by_cases ha : a = '\x1b'
        · rw [if_pos ha] at h
          rcases List.mem_cons.mp h with h' | h'
          · exact Or.inl (List.mem_cons.mpr (Or.inl h'))
          · rcases ih [a] c h' with h'' | h''
            · exact Or.inr (List.mem_cons.mpr (Or.inl (by simpa using h'')))
            · exact Or.inr (List.mem_cons_of_mem a h'')
        · rw [if_neg ha] at h
          rcases List.mem_cons.mp h with h' | h'
          · exact Or.inl (List.mem_cons.mpr (Or.inl h'))
          · rcases List.mem_cons.mp h' with h'' | h''
            · exact Or.inr (List.mem_cons.mpr (Or.inl h''))
            · rcases ih [] c h'' with h3 | h3
              · exact absurd h3 (List.not_mem_nil c)
              · exact Or.inr (List.mem_cons_of_mem a h3)
    · by_cases hd : (a.isDigit || a = ';') = true
      · rw [if_pos hd] at h
        rcases ih (p :: q :: ps ++ [a]) c h with h' | h'
        · by_cases hca : c = a
          · exact Or.inr (by simp [hca])
          · refine Or.inl ?_
            have h'' := h'
            simp only [List.mem_cons, List.mem_append, List.mem_singleton] at h'' ⊢
            tauto
        · exact Or.inr (List.mem_cons_of_mem a h')
      · rw [if_neg hd] at h
        by_cases hm : a = 'm'
        · rw [if_pos hm] at h
          rcases ih [] c h with h' | h'
          · exact absurd h' (List.not_mem_nil c)
          · exact Or.inr (List.mem_cons_of_mem a h')
        · rw [if_neg hm] at h
          by_cases ha : a = '\x1b'
          · rw [if_pos ha] at h
            rcases List.mem_append.mp h with h' | h'
            · exact Or.inl h'
            · rcases ih [a] c h' with h'' | h''
              · exact Or.inr (List.mem_cons.mpr (Or.inl (by simpa using h'')))
              · exact Or.inr (List.mem_cons_of_mem a h'')
          · rw [if_neg ha] at h
            rcases List.mem_append.mp h with h' | h'
            · exact Or.inl h'
            · rcases List.mem_cons.mp h' with h'' | h''
              · exact Or.inr (List.mem_cons.mpr (Or.inl h''))
              · rcases ih [] c h'' with h3 | h3
                · exact absurd h3 (List.not_mem_nil c)
                · exact Or.inr (List.mem_cons_of_mem a h3)

/-- On input free of the escape character the ANSI stripper is the
identity. -/
theorem strip_go_esc_free (l : List Char) (h : ∀ c ∈ l, c ≠ '\x1b') :
    strip_go [] l = l := by
  induction l with
  | nil => rfl
  | cons a rest ih =>
    rw [strip_go]
    rw [if_neg (h a (List.mem_cons_self a rest))]
    rw [ih (fun c hc => h c (List.mem_cons_of_mem a hc))]

/-- A `'\n'` can neither extend nor begin an ANSI escape candidate, so the
stripper distributes over an append whose right part starts with `'\n'`. -/
theorem strip_go_append_nl (l2 : List Char) : ∀ (l1 pending : List Char),
    strip_go pending (l1 ++ '\n' :: l2) =
      strip_go pending l1 ++ '\n' :: strip_go [] l2 := by
  intro l1
  induction l1 with
  | nil =>
    intro pending
    rcases pending with _ | ⟨p, _ | ⟨q, ps⟩⟩ <;> simp [strip_go]
  | cons a r ih =>
    intro pending
    rcases pending with _ | ⟨p, _ | ⟨q, ps⟩⟩ <;>
      simp only [List.cons_append, strip_go] <;>
      split_ifs <;>
      simp [ih, List.append_assoc]

theorem mk_append (x y : List Char) :
    String.mk (x ++ y) = String.mk x ++ String.mk y := rfl

theorem str_append_empty (s : String) : s ++ "" = s := by
  obtain ⟨d⟩ := s
  show String.mk (d ++ []) = String.mk d
  rw [List.append_nil]

/-! ## Lemmas about the masking loop -/

/-- With `debug = False` and a verdict available for every token, the loop
returns exactly the sentinel-substituted token list and no debug records. -/
theorem mask_loop_false_ok (lid : FastTextLike) (thr : ℚ) (min_len : ℕ)
    (margin : ℚ) : ∀ (toks : List String),
    (∀ tok ∈ toks, ∃ b,
      is_russian_token tok thr min_len lid [] margin = .ok b) →
    mask_loop lid thr min_len margin false toks =
      .ok (toks.map (fun tok =>
        if is_russian_token tok thr min_len lid [] margin = .ok true
        then "<RU>" else tok), []) := by
  intro toks
  induction toks with
  | nil => intro _; rfl
  | cons t ts ih =>
    intro h
    obtain ⟨b, hb⟩ := h t (List.mem_cons_self t ts)
    rw [mask_loop, hb]
    simp only []
    have hd : dbg_step lid t b false = .ok [] := rfl
    rw [hd]
    rw [ih (fun tok htok => h tok (List.mem_cons_of_mem t htok))]
    simp only [List.map_cons, List.nil_append]
    cases b with
    | true => rw [if_pos rfl, if_pos hb]
    | false =>
      have h1 : ¬ ((false : Bool) = true) := by simp
      have h2 : ¬ (is_russian_token t thr min_len lid [] margin =
          Except.ok true) := by
        rw [hb]
        simp
      rw [if_neg h1, if_neg h2]

/-- Every token emitted by the loop is the sentinel or one of the inputs. -/
theorem mask_loop_members (lid : FastTextLike) (thr : ℚ) (min_len : ℕ)
    (margin : ℚ) (debug : Bool) : ∀ (toks ms : List String) (ds : List DbgRec),
    mask_loop lid thr min_len margin debug toks = .ok (ms, ds) →
    ∀ m ∈ ms, m = "<RU>" ∨ m ∈ toks := by
  intro toks
  induction toks with
  | nil =>
    intro ms ds h m hm
    rw [mask_loop] at h
    obtain ⟨hms, _⟩ := Prod.mk.injEq .. ▸ Except.ok.inj h
    subst hms
    exact absurd hm (List.not_mem_nil m)
  | cons t ts ih =>
    intro ms ds h m hm
    rw [mask_loop] at h
    rcases h1 : is_russian_token t thr min_len lid [] margin with e | ru <;>
      rw [h1] at h
    · exact absurd h (by simp)
    · simp only [] at h
      rcases h2 : dbg_step lid t ru debug with e | ds0 <;> rw [h2] at h
      · exact absurd h (by simp)
      · rcases h3 : mask_loop lid thr min_len margin debug ts with e | ⟨ms', ds'⟩ <;>
          rw [h3] at h
        · exact absurd h (by simp)
        · obtain ⟨hms, _⟩ := Prod.mk.injEq .. ▸ Except.ok.inj h
          subst hms
          rcases List.mem_cons.mp hm with hm' | hm'
          · subst hm'
            by_cases hru : ru = true
            · rw [hru, if_pos rfl]
              exact Or.inl rfl
            · rw [if_neg hru]
              exact Or.inr (List.mem_cons_self t ts)
          · rcases ih ms' ds' h3 m hm' with h4 | h4
            · exact Or.inl h4
            · exact Or.inr (List.mem_cons_of_mem t h4)

/-- When every per-token debug prediction succeeds with a non-empty result,
debug mode fails exactly when non-debug mode fails (same exception) and
succeeds with exactly the same masked token list. -/
theorem mask_loop_debug_rel (lid : FastTextLike) (thr : ℚ) (min_len : ℕ)
    (margin : ℚ) : ∀ (toks : List String),
    (∀ tok ∈ toks, ∃ ls cs, lid.predict (str_lower tok) 1 = .ok (ls, cs) ∧
      ls.isEmpty = false ∧ cs.isEmpty = false) →
    ((∀ e, mask_loop lid thr min_len margin false toks = .error e →
        mask_loop lid thr min_len margin true toks = .error e) ∧
     (∀ ms ds0, mask_loop lid thr min_len margin false toks = .ok (ms, ds0) →
        ∃ ds, mask_loop lid thr min_len margin true toks = .ok (ms, ds))) := by
  intro toks
  induction toks with
  | nil =>
    intro _
    constructor
    · intro e h
      exact absurd h (by rw [mask_loop]; simp)
    · intro ms ds0 h
      rw [mask_loop] at h
      obtain ⟨hms, _⟩ := Prod.mk.injEq .. ▸ Except.ok.inj h
      subst hms
      exact ⟨[], rfl⟩
  | cons t ts ih =>
    intro h
    obtain ⟨ls, cs, hpred, hls, hcs⟩ := h t (List.mem_cons_self t ts)
    obtain ⟨ihe, ihok⟩ := ih (fun tok htok => h tok (List.mem_cons_of_mem t htok))
    rcases h1 : is_russian_token t thr min_len lid [] margin with e0 | ru
    · constructor
      · intro e hh
        rw [mask_loop, h1]
        rw [mask_loop, h1] at hh
        exact hh
      · intro ms ds0 hh
        rw [mask_loop, h1] at hh
        exact absurd hh (by simp)
    · have hdbg : dbg_step lid t ru true =
          .ok [⟨t, ru, (ls.headD "").drop 9, cs.headD 0⟩] := by
        rw [dbg_step, if_pos rfl, hpred]
        simp only [hls, hcs, Bool.or_self, Bool.false_eq_true, if_false]
      have hdbg0 : dbg_step lid t ru false = .ok [] := rfl
      constructor
      · intro e hh
        rw [mask_loop, h1] at hh
        simp only [hdbg0] at hh
        rcases h3 : mask_loop lid thr min_len margin false ts with e' | ⟨ms', ds'⟩ <;>
          rw [h3] at hh
        · rw [mask_loop, h1]
          simp only [hdbg]
          rw [ihe e' h3]
          exact hh
        · exact absurd hh (by simp)
      · intro ms ds0 hh
        rw [mask_loop, h1] at hh
        simp only [hdbg0] at hh
        rcases h3 : mask_loop lid thr min_len margin false ts with e' | ⟨ms', ds'⟩ <;>
          rw [h3] at hh
        · exact absurd hh (by simp)
        · obtain ⟨ds2, h4⟩ := ihok ms' ds' h3
          obtain ⟨hms, _⟩ := Prod.mk.injEq .. ▸ Except.ok.inj hh
          subst hms
          refine ⟨⟨t, ru, (ls.headD "").drop 9, cs.headD 0⟩ :: ds2, ?_⟩
          rw [mask_loop, h1]
          simp only [hdbg]
          rw [h4]
          rfl

/-! ## Helper lemmas for the token filter -/

/-- Unfolding of `is_russian_token` when all three short-circuit gates pass
and the oracle answers: the result is the pure decision over the returned
labels and confidences. -/
theorem irt_predict_ok (token : String) (thr margin : ℚ) (min_len : ℕ)
    (lid : FastTextLike) (stoplist : List String)
    (labels : List String) (confs : List ℚ)
    (hlen : ¬ token.length < min_len)
    (hstop : str_lower token ∉ stoplist)
    (hkz : (str_lower token).data.any (fun c => kz_extra.contains c) = false)
    (hpred : lid.predict (str_lower token) 3 = .ok (labels, confs)) :
    is_russian_token token thr min_len lid stoplist margin =
      .ok (if labels.isEmpty || confs.isEmpty then false
        else if labels.headD "" = "__label__ru" ∧ thr ≤ confs.headD 0 then true
        else if "__label__ru" ∈ labels.drop 1 ∧
            labels.findIdx (fun l => l = "__label__ru") < confs.length ∧
            thr ≤ confs.getD (labels.findIdx (fun l => l = "__label__ru")) 0 ∧
            confs.headD 0 - margin ≤
              confs.getD (labels.findIdx (fun l => l = "__label__ru")) 0 then true
        else (decide (thr = 0) && ru_only (str_lower token))) := by
  unfold is_russian_token
  rw [if_neg hlen]
  simp only
  rw [if_neg hstop,
    if_neg (show ¬ ((str_lower token).data.any (fun c => kz_extra.contains c) = true) by
      rw [hkz]; exact Bool.false_ne_true),
    hpred]
  simp only []
  split_ifs <;> rfl

/-- `is_russian_token` result, one step beyond `irt_predict_ok`, when the
prediction is the well-formed triple `[l1, l2, l3]` / `[c1, c2, c3]`. -/
theorem irt_triple (token : String) (thr margin : ℚ) (min_len : ℕ)
    (lid : FastTextLike) (stoplist : List String)
    (l1 l2 l3 : String) (c1 c2 c3 : ℚ)
    (hlen : ¬ token.length < min_len)
    (hstop : str_lower token ∉ stoplist)
    (hkz : (str_lower token).data.any (fun c => kz_extra.contains c) = false)
    (hpred : lid.predict (str_lower token) 3 = .ok ([l1, l2, l3], [c1, c2, c3])) :
    is_russian_token token thr min_len lid stoplist margin =
      .ok (if l1 = "__label__ru" ∧ thr ≤ c1 then true
        else if "__label__ru" ∈ [l2, l3] ∧
            [l1, l2, l3].findIdx (fun l => l = "__label__ru") < 3 ∧
            thr ≤ [c1, c2, c3].getD ([l1, l2, l3].findIdx (fun l => l = "__label__ru")) 0 ∧
            c1 - margin ≤
              [c1, c2, c3].getD ([l1, l2, l3].findIdx (fun l => l = "__label__ru")) 0 then
          true
        else (decide (thr = 0) && ru_only (str_lower token))) := by
  rw [irt_predict_ok token thr margin min_len lid stoplist _ _ hlen hstop hkz hpred]
  simp only [List.isEmpty_cons, Bool.false_or, List.headD_cons, List.drop_succ_cons,
    List.drop_zero, List.length_cons, List.length_nil, if_false, Bool.or_self]
  norm_num

/-! ## Claim theorems: the three short-circuit gates -/

/-- C2: a token strictly shorter than `min_len` is never judged foreign,
for every oracle, stoplist, threshold and margin: the length gate returns
before the oracle is consulted. -/
theorem C2_short_token_gate (token : String) (thr margin : ℚ) (min_len : ℕ)
    (lid : FastTextLike) (stoplist : List String)
    (hlen : token.length < min_len) :
    is_russian_token token thr min_len lid stoplist margin = .ok false := by
  unfold is_russian_token
  rw [if_pos hlen]

/-- C2 witness: `"мир"` (3 letters) with `min_len = 4` and a stub oracle that
always answers Russian at confidence 1.0 is still judged not Russian. -/
theorem C2_short_token_gate_witness :
    is_russian_token "мир" (mkRat 1 2) 4 stub_ru [] (mkRat 1 10) = .ok false :=
  C2_short_token_gate "мир" (mkRat 1 2) (mkRat 1 10) 4 stub_ru [] (by decide)

/-- C3: a token of sufficient length whose lowercase form is in the stoplist
is never judged foreign, for every oracle: the stoplist gate returns before
the oracle is consulted. -/
theorem C3_stoplist_gate (token : String) (thr margin : ℚ) (min_len : ℕ)
    (lid : FastTextLike) (stoplist : List String)
    (hlen : ¬ token.length < min_len)
    (hstop : str_lower token ∈ stoplist) :
    is_russian_token token thr min_len lid stoplist margin = .ok false := by
  unfold is_russian_token
  rw [if_neg hlen]
  simp only
  rw [if_pos hstop]

/-- C3 witness: the stoplisted token `"Привет"` (lowercased to `"привет"`)
with a stub oracle always answering Russian at confidence 1.0 is still
judged not Russian. -/
theorem C3_stoplist_gate_witness :
    is_russian_token "Привет" (mkRat 1 2) 3 stub_ru ["привет"] (mkRat 1 10) =
      .ok false :=
  C3_stoplist_gate "Привет" (mkRat 1 2) (mkRat 1 10) 3 stub_ru ["привет"]
    (by decide) (by decide)

/-- Lowercasing keeps the Kazakh-only letters inside `KZ_EXTRA`. -/
theorem kz_extra_py_lower (c : Char) (hc : c ∈ kz_extra) :
    py_lower c ∈ kz_extra := by
  fin_cases hc <;> decide

/-- C4: a token of sufficient length, not stoplisted, containing any letter
of `KZ_EXTRA` is never judged foreign, for every oracle: the orthographic
gate returns before the oracle is consulted. -/
theorem C4_kazakh_letter_gate (token : String) (thr margin : ℚ) (min_len : ℕ)
    (lid : FastTextLike) (stoplist : List String) (c : Char)
    (hlen : ¬ token.length < min_len)
    (hstop : str_lower token ∉ stoplist)
    (hc : c ∈ token.data) (hkz : c ∈ kz_extra) :
    is_russian_token token thr min_len lid stoplist margin = .ok false := by
  unfold is_russian_token
  rw [if_neg hlen]
  simp only
  rw [if_neg hstop, if_pos]
  have hmem : py_lower c ∈ (str_lower token).data := List.mem_map_of_mem py_lower hc
  have : (str_lower token).data.any (fun c => kz_extra.contains c) = true :=
    List.any_eq_true.mpr
      ⟨py_lower c, hmem, List.elem_eq_true_of_mem (kz_extra_py_lower c hkz)⟩
  simpa using this

/-- C4 witness: `"СӘЛЕМ"` contains the Kazakh-only letter `Ә`, so a stub
oracle always answering Russian at confidence 1.0 is overridden. -/
theorem C4_kazakh_letter_gate_witness :
    is_russian_token "СӘЛЕМ" (mkRat 1 2) 3 stub_ru [] (mkRat 1 10) = .ok false :=
  C4_kazakh_letter_gate "СӘЛЕМ" (mkRat 1 2) (mkRat 1 10) 3 stub_ru [] 'Ә'
    (by decide) (by decide) (by decide) (by decide)

/-! ## Claim theorems: classifier acceptance and fallback -/

/-- C1: for a token passing the three gates, a positive threshold, and a
well-formed k=3 prediction in which `__label__ru` occurs at most once,
the verdict is Russian exactly when the label is rank-1 with confidence
`≥ thr`, or at rank 2 or 3 with confidence `≥ thr` and a gap from rank-1 of
at most `margin`; all comparisons inclusive. -/
theorem C1_classifier_acceptance (token : String) (thr margin : ℚ)
    (min_len : ℕ) (lid : FastTextLike) (stoplist : List String)
    (l1 l2 l3 : String) (c1 c2 c3 : ℚ)
    (hlen : ¬ token.length < min_len)
    (hstop : str_lower token ∉ stoplist)
    (hkz : (str_lower token).data.any (fun c => kz_extra.contains c) = false)
    (hpred : lid.predict (str_lower token) 3 = .ok ([l1, l2, l3], [c1, c2, c3]))
    (hthr : 0 < thr)
    (hru : ¬ (l1 = "__label__ru" ∧ l2 = "__label__ru") ∧
           ¬ (l1 = "__label__ru" ∧ l3 = "__label__ru") ∧
           ¬ (l2 = "__label__ru" ∧ l3 = "__label__ru")) :
    is_russian_token token thr min_len lid stoplist margin = .ok true ↔
      ((l1 = "__label__ru" ∧ thr ≤ c1) ∨
        (l2 = "__label__ru" ∧ thr ≤ c2 ∧ c1 - c2 ≤ margin) ∨
        (l3 = "__label__ru" ∧ thr ≤ c3 ∧ c1 - c3 ≤ margin)) := by
  rw [irt_triple token thr margin min_len lid stoplist l1 l2 l3 c1 c2 c3
    hlen hstop hkz hpred]
  have hthr0 : ¬ thr = 0 := ne_of_gt hthr
  by_cases h1 : l1 = "__label__ru" <;> by_cases h2 : l2 = "__label__ru" <;>
    by_cases h3 : l3 = "__label__ru"
  · exact absurd ⟨h1, h2⟩ hru.1
  · exact absurd ⟨h1, h2⟩ hru.1
  · exact absurd ⟨h1, h3⟩ hru.2.1
  · -- rank-1 case: only the first disjunct can hold
    subst h1
    by_cases hc1 : thr ≤ c1 <;>
      simp [hc1, Ne.symm h2, Ne.symm h3, h2, h3, hthr0]
  · exact absurd ⟨h2, h3⟩ hru.2.2
  · -- rank-2 case
    subst h2
    simp only [List.findIdx_cons, h1, decide_eq_true_eq, if_neg h1, cond_eq_if,
      decide_eq_true_eq]
    by_cases hc2 : thr ≤ c2 <;> by_cases hm2 : c1 - c2 ≤ margin <;>
      simp [h1, h3, Ne.symm h3, hc2, hm2, hthr0, sub_le_comm, List.findIdx_cons] <;>
      linarith
  · -- rank-3 case
    subst h3
    by_cases hc3 : thr ≤ c3 <;> by_cases hm3 : c1 - c3 ≤ margin <;>
      simp [h1, h2, Ne.symm h1, Ne.symm h2, hc3, hm3, hthr0, sub_le_comm,
        List.findIdx_cons] <;>
      linarith
  · -- no Russian label anywhere
    simp [h1, h2, h3, Ne.symm h2, Ne.symm h3, hthr0]

unseal Rat.sub in
/-- C1 witness: with `thr = 1/2`, `margin = 1/10`, a rank-2 Russian label at
confidence exactly `thr` and gap exactly `margin` is accepted, while the
same prediction with gap `margin + 1/100` is rejected. -/
theorem C1_classifier_acceptance_witness :
    is_russian_token "привет" (mkRat 1 2) 3 stub_margin [] (mkRat 1 10) =
        .ok true ∧
    ¬ is_russian_token "привет" (mkRat 1 2) 3 stub_margin_eps [] (mkRat 1 10) =
        .ok true := by
  constructor
  · exact (C1_classifier_acceptance "привет" (mkRat 1 2) (mkRat 1 10) 3
      stub_margin [] _ _ _ _ _ _ (by decide) (by decide) (by decide) rfl
      (by decide) (by decide)).mpr (Or.inr (Or.inl ⟨rfl, by decide, by decide⟩))
  · intro h
    exact absurd ((C1_classifier_acceptance "привет" (mkRat 1 2) (mkRat 1 10) 3
      stub_margin_eps [] _ _ _ _ _ _ (by decide) (by decide) (by decide) rfl
      (by decide) (by decide)).mp h) (by decide)

/-- C5: for a token passing the three gates whose k=3 prediction satisfies
neither the rank-1 acceptance nor the close-second acceptance, the verdict
is Russian exactly when `thr = 0` and the token matches `^[А-ЯЁа-яё]+$`;
in particular the orthographic fallback never fires for `thr > 0`. -/
theorem C5_orthographic_fallback (token : String) (thr margin : ℚ)
    (min_len : ℕ) (lid : FastTextLike) (stoplist : List String)
    (l1 l2 l3 : String) (c1 c2 c3 : ℚ)
    (hlen : ¬ token.length < min_len)
    (hstop : str_lower token ∉ stoplist)
    (hkz : (str_lower token).data.any (fun c => kz_extra.contains c) = false)
    (hpred : lid.predict (str_lower token) 3 = .ok ([l1, l2, l3], [c1, c2, c3]))
    (hna : ¬ (l1 = "__label__ru" ∧ thr ≤ c1))
    (hnb : ¬ ((l2 = "__label__ru" ∧ thr ≤ c2 ∧ c1 - c2 ≤ margin) ∨
              (l3 = "__label__ru" ∧ thr ≤ c3 ∧ c1 - c3 ≤ margin))) :
    is_russian_token token thr min_len lid stoplist margin = .ok true ↔
      (thr = 0 ∧ ru_only token = true) := by
  rw [irt_triple token thr margin min_len lid stoplist l1 l2 l3 c1 c2 c3
    hlen hstop hkz hpred]
  push_neg at hnb
  obtain ⟨hnb2, hnb3⟩ := hnb
  have hfall :
      (Except.ok (decide (thr = 0) && ru_only (str_lower token)) :
          Except String Bool) = .ok true ↔ (thr = 0 ∧ ru_only token = true) := by
    simp [ru_only_lower, Bool.and_eq_true, decide_eq_true_eq]
  by_cases h1 : l1 = "__label__ru"
  · have hc1 : ¬ thr ≤ c1 := fun hc => hna ⟨h1, hc⟩
    rw [if_neg (fun hp => hc1 hp.2)]
    subst h1
    rw [if_neg]
    · exact hfall
    · intro hp
      have hidx :
          List.findIdx (fun l => l = "__label__ru")
            ["__label__ru", l2, l3] = 0 := by
        simp [List.findIdx_cons]
      rw [hidx] at hp
      exact hc1 hp.2.2.1
  · rw [if_neg (fun hp => h1 hp.1)]
    by_cases h2 : l2 = "__label__ru"
    · subst h2
      have hidx :
          List.findIdx (fun l => l = "__label__ru")
            [l1, "__label__ru", l3] = 1 := by
        simp [List.findIdx_cons, h1]
      rw [hidx, if_neg]
      · exact hfall
      · intro hp
        have hget : ([c1, c2, c3].getD 1 0) = c2 := by simp [List.getD]
        rw [hget] at hp
        have := hnb2 rfl hp.2.2.1
        linarith [hp.2.2.2]
    · by_cases h3 : l3 = "__label__ru"
      · subst h3
        have hidx :
            List.findIdx (fun l => l = "__label__ru")
              [l1, l2, "__label__ru"] = 2 := by
          simp [List.findIdx_cons, h1, h2]
        rw [hidx, if_neg]
        · exact hfall
        · intro hp
          have hget : ([c1, c2, c3].getD 2 0) = c3 := by simp [List.getD]
          rw [hget] at hp
          have := hnb3 rfl hp.2.2.1
          linarith [hp.2.2.2]
      · rw [if_neg]
        · exact hfall
        · intro hp
          have hmem := hp.1
          simp only [List.mem_cons, List.not_mem_nil, or_false] at hmem
          rcases hmem with hm | hm
          · exact h2 hm.symm
          · exact h3 hm.symm

unseal Rat.sub in
/-- C5 witness: with a prediction containing no Russian label, the pure
Cyrillic token `"привет"` is judged Russian at `thr = 0` and not judged
Russian at `thr = 1/2`. -/
theorem C5_orthographic_fallback_witness :
    is_russian_token "привет" 0 3 stub_en [] (mkRat 1 10) = .ok true ∧
    ¬ is_russian_token "привет" (mkRat 1 2) 3 stub_en [] (mkRat 1 10) =
        .ok true := by
  constructor
  · exact (C5_orthographic_fallback "привет" 0 (mkRat 1 10) 3 stub_en []
      _ _ _ _ _ _ (by decide) (by decide) (by decide) rfl (by decide)
      (by decide)).mpr ⟨rfl, by decide⟩
  · intro h
    exact absurd ((C5_orthographic_fallback "привет" (mkRat 1 2) (mkRat 1 10) 3
      stub_en [] _ _ _ _ _ _ (by decide) (by decide) (by decide) rfl
      (by decide) (by decide)).mp h) (by decide)

/-- C10: the filter is total over degenerate oracle outputs.  If the
prediction has an empty label list or empty confidence list the result is
`False`; if the index of the Russian label lies beyond the confidence list
the rank-2/3 branch is skipped and only the orthographic fallback remains.
In both cases a boolean is returned (`Except.ok`), never an error. -/
theorem C10_degenerate_oracle_total :
    (∀ (token : String) (thr margin : ℚ) (min_len : ℕ) (lid : FastTextLike)
        (stoplist : List String) (ls : List String) (cs : List ℚ),
      ¬ token.length < min_len → str_lower token ∉ stoplist →
      (str_lower token).data.any (fun c => kz_extra.contains c) = false →
      lid.predict (str_lower token) 3 = .ok (ls, cs) →
      ls = [] ∨ cs = [] →
      is_russian_token token thr min_len lid stoplist margin = .ok false) ∧
    (∀ (token : String) (thr margin : ℚ) (min_len : ℕ) (lid : FastTextLike)
        (stoplist : List String) (ls : List String) (cs : List ℚ),
      ¬ token.length < min_len → str_lower token ∉ stoplist →
      (str_lower token).data.any (fun c => kz_extra.contains c) = false →
      lid.predict (str_lower token) 3 = .ok (ls, cs) →
      ls.isEmpty = false → cs.isEmpty = false →
      ¬ ls.headD "" = "__label__ru" →
      ¬ ls.findIdx (fun l => l = "__label__ru") < cs.length →
      is_russian_token token thr min_len lid stoplist margin =
        .ok (decide (thr = 0) && ru_only (str_lower token))) := by
  constructor
  · intro token thr margin min_len lid stoplist ls cs hlen hstop hkz hpred hdeg
    rw [irt_predict_ok token thr margin min_len lid stoplist ls cs
      hlen hstop hkz hpred]
    rcases hdeg with h | h <;> subst h <;> simp
  · intro token thr margin min_len lid stoplist ls cs hlen hstop hkz hpred
      hls hcs hhead hidx
    rw [irt_predict_ok token thr margin min_len lid stoplist ls cs
      hlen hstop hkz hpred]
    rw [hls, hcs]
    simp only [Bool.or_self, Bool.false_eq_true, if_false]
    rw [if_neg (fun hp => hhead hp.1), if_neg (fun hp => hidx hp.2.1)]

/-- C10 witness: both degenerate oracles yield `.ok false` at `thr = 1/2`,
with no exception. -/
theorem C10_degenerate_oracle_total_witness :
    is_russian_token "привет" (mkRat 1 2) 3 stub_empty [] (mkRat 1 10) =
        .ok false ∧
    is_russian_token "привет" (mkRat 1 2) 3 stub_confless [] (mkRat 1 10) =
        .ok false := by
  constructor
  · exact C10_degenerate_oracle_total.1 "привет" (mkRat 1 2) (mkRat 1 10) 3
      stub_empty [] [] [] (by decide) (by decide) (by decide) rfl (Or.inl rfl)
  · have := C10_degenerate_oracle_total.2 "привет" (mkRat 1 2) (mkRat 1 10) 3
      stub_confless [] ["__label__en", "__label__ru"] [mkRat 9 10]
      (by decide) (by decide) (by decide) rfl (by decide) (by decide)
      (by decide) (by decide)
    rw [this]
    decide

/-! ## Claim theorems: the masking pipeline -/

/-- C6 counterexample: `mask_russian` does NOT leave every non-foreign token
byte-for-byte untouched — the final `_ansi_re.sub` strips ANSI escape
sequences.  The single token `"ab\x1b[0m"` is judged not Russian yet comes
back as `"ab"`. -/
theorem C6_masking_counterexample :
    is_russian_token "ab\x1b[0m" (mkRat 1 2) 3 stub_scenario [] (mkRat 1 10) =
        .ok false ∧
    py_split_ws "ab\x1b[0m" = ["ab\x1b[0m"] ∧
    mask_russian stub_scenario "ab\x1b[0m" (mkRat 1 2) 3 (mkRat 1 10) false =
        "ab" ∧
    "ab" ≠ "ab\x1b[0m" := by
  refine ⟨by decide, by decide, by decide, by decide⟩

/-- C6 (amended): for input text containing no escape character and an
oracle that yields a verdict for every token, `mask_russian` splits the text
on whitespace runs, replaces exactly the tokens judged foreign with the
sentinel `<RU>`, leaves every other token byte-for-byte untouched, and
rejoins with single spaces.  (On text containing `\x1b`, ANSI escape
sequences are additionally removed from the output.) -/
theorem C6_masking_amended (lid : FastTextLike) (text : String) (thr : ℚ)
    (min_len : ℕ) (margin : ℚ)
    (hesc : ∀ c ∈ text.data, c ≠ '\x1b')
    (hok : ∀ tok ∈ py_split_ws text, ∃ b,
      is_russian_token tok thr min_len lid [] margin = .ok b) :
    mask_russian lid text thr min_len margin false =
      String.mk (join_sp ((py_split_ws text).map
        (fun tok => if is_russian_token tok thr min_len lid [] margin = .ok true
          then "<RU>".data else tok.data))) := by
  unfold mask_russian
  rw [mask_loop_false_ok lid thr min_len margin (py_split_ws text) hok]
  simp only [Bool.false_eq_true, if_false]
  have hmaps : ((py_split_ws text).map
      (fun tok => if is_russian_token tok thr min_len lid [] margin = .ok true
        then "<RU>" else tok)).map String.data =
      (py_split_ws text).map
        (fun tok => if is_russian_token tok thr min_len lid [] margin = .ok true
          then "<RU>".data else tok.data) := by
    rw [List.map_map]
    refine List.map_congr_left ?_
    intro tok _
    simp only [Function.comp_apply, apply_ite String.data]
  rw [hmaps]
  congr 1
  apply strip_go_esc_free
  intro c hc
  rcases join_sp_mem _ c hc with h | ⟨w, hw, hcw⟩
  · subst h
    decide
  · rcases List.mem_map.mp hw with ⟨tok, htok, hwtok⟩
    subst hwtok
    by_cases hif : is_russian_token tok thr min_len lid [] margin = .ok true
    · rw [if_pos hif] at hcw
      fin_cases hcw <;> decide
    · rw [if_neg hif] at hcw
      rcases List.mem_map.mp htok with ⟨w', hw', hmk⟩
      have : tok.data = w' := by rw [← hmk]
      rw [this] at hcw
      rcases split_go_mem text.data [] w' c hw' hcw with h | h
      · exact absurd h (List.not_mem_nil c)
      · exact hesc c h.1

/-- C6 witness (the spec's concrete scenario): masking
`"привет мир hello"` at `thr = 1/2`, `min_len = 3` with an oracle answering
Russian at 0.9 for the first two tokens and English at 0.95 for the third
yields `"<RU> <RU> hello"`. -/
theorem C6_masking_amended_witness :
    mask_russian stub_scenario "привет мир hello" (mkRat 1 2) 3 (mkRat 1 10)
        false = "<RU> <RU> hello" := by
  rw [C6_masking_amended stub_scenario "привет мир hello" (mkRat 1 2) 3
    (mkRat 1 10) (by decide) ?hok]
  · decide
  case hok =>
    intro tok htok
    rw [show py_split_ws "привет мир hello" = ["привет", "мир", "hello"]
      from by decide] at htok
    fin_cases htok
    · exact ⟨true, by decide⟩
    · exact ⟨true, by decide⟩
    · exact ⟨false, by decide⟩

/-! ## Claim theorems: error propagation (C7) -/

/-- C7 counterexample: an oracle that "produces no usable prediction"
(empty label and confidence lists) is NOT surfaced as an error:
`is_russian_token` silently returns `.ok false`, byte-identical to the
verdict an explicitly non-Russian prediction produces. -/
theorem C7_error_counterexample :
    is_russian_token "привет" (mkRat 1 2) 3 stub_empty [] (mkRat 1 10) =
        .ok false ∧
    is_russian_token "привет" (mkRat 1 2) 3 stub_en [] (mkRat 1 10) =
        .ok false := by
  refine ⟨by decide, by decide⟩

/-- C7 (amended): a raised oracle exception does propagate out of
`is_russian_token`; `mask_russian` catches it and returns the markdown
error message, which is distinguishable from every successful masked output
(the message contains a newline, successful outputs never do).  However an
oracle returning an empty prediction is not surfaced: `is_russian_token`
then returns false exactly as for a not-foreign token (see the
counterexample). -/
theorem C7_error_surfacing_amended :
    (∀ (token : String) (thr margin : ℚ) (min_len : ℕ) (lid : FastTextLike)
        (stoplist : List String) (e : String),
      ¬ token.length < min_len → str_lower token ∉ stoplist →
      (str_lower token).data.any (fun c => kz_extra.contains c) = false →
      lid.predict (str_lower token) 3 = .error e →
      is_russian_token token thr min_len lid stoplist margin = .error e) ∧
    (∀ (lid : FastTextLike) (text : String) (thr : ℚ) (min_len : ℕ)
        (margin : ℚ) (debug : Bool) (e : String),
      mask_loop lid thr min_len margin debug (py_split_ws text) = .error e →
      mask_russian lid text thr min_len margin debug = error_markdown e) ∧
    (∀ (lid : FastTextLike) (text : String) (thr : ℚ) (min_len : ℕ)
        (margin : ℚ) (ms : List String) (ds : List DbgRec),
      mask_loop lid thr min_len margin false (py_split_ws text) = .ok (ms, ds) →
      '\n' ∉ (mask_russian lid text thr min_len margin false).data) ∧
    (∀ e : String, '\n' ∈ (error_markdown e).data) := by
  refine ⟨?_, ?_, ?_, ?_⟩
  · intro token thr margin min_len lid stoplist e hlen hstop hkz hpred
    unfold is_russian_token
    rw [if_neg hlen]
    simp only
    rw [if_neg hstop,
      if_neg (show ¬ ((str_lower token).data.any
          (fun c => kz_extra.contains c) = true) by
        rw [hkz]; exact Bool.false_ne_true),
      hpred]
  · intro lid text thr min_len margin debug e h
    unfold mask_russian
    rw [h]
  · intro lid text thr min_len margin ms ds h hmem
    unfold mask_russian at hmem
    rw [h] at hmem
    simp only [Bool.false_eq_true, if_false] at hmem
    rcases strip_go_mem _ [] '\n' hmem with h' | h'
    · exact absurd h' (List.not_mem_nil _)
    · rcases join_sp_mem _ '\n' h' with h'' | ⟨w, hw, hcw⟩
      · exact absurd h'' (by decide)
      · rcases List.mem_map.mp hw with ⟨m, hm, hwm⟩
        subst hwm
        rcases mask_loop_members lid thr min_len margin false
          (py_split_ws text) ms ds h m hm with h3 | h3
        · rw [h3] at hcw
          exact absurd hcw (by decide)
        · rcases List.mem_map.mp h3 with ⟨w', hw', hmk⟩
          have : m.data = w' := by rw [← hmk]
          rw [this] at hcw
          rcases split_go_mem text.data [] w' '\n' hw' hcw with h4 | h4
          · exact absurd h4 (List.not_mem_nil _)
          · exact absurd h4.2 (by decide)
  · intro e
    unfold error_markdown
    rw [String.data_append]
    exact List.mem_append.mpr (Or.inl (by decide))

/-- C7 witness: with an oracle raising `"model not loaded"`, the filter
propagates the error, `mask_russian` returns the markdown message, and with
a healthy oracle a successful masked output contains no newline while the
error message does. -/
theorem C7_error_surfacing_amended_witness :
    is_russian_token "привет" (mkRat 1 2) 3 stub_fail [] (mkRat 1 10) =
        .error "model not loaded" ∧
    mask_russian stub_fail "привет" (mkRat 1 2) 3 (mkRat 1 10) false =
        error_markdown "model not loaded" ∧
    '\n' ∉ (mask_russian stub_en "привет мир" (mkRat 1 2) 3 (mkRat 1 10)
        false).data ∧
    '\n' ∈ (error_markdown "model not loaded").data := by
  refine ⟨?_, ?_, ?_, ?_⟩
  · exact C7_error_surfacing_amended.1 "привет" (mkRat 1 2) (mkRat 1 10) 3
      stub_fail [] "model not loaded" (by decide) (by decide) (by decide) rfl
  · exact C7_error_surfacing_amended.2.1 stub_fail "привет" (mkRat 1 2) 3
      (mkRat 1 10) false "model not loaded" (by decide)
  · exact C7_error_surfacing_amended.2.2.1 stub_en "привет мир" (mkRat 1 2) 3
      (mkRat 1 10) ["привет", "мир"] [] (by decide)
  · exact C7_error_surfacing_amended.2.2.2 "model not loaded"

/-! ## Claim theorems: debug mode does not alter the masked output (C8) -/

/-- C8: whenever the per-token debug prediction succeeds with a non-empty
result for every token (as a loaded fastText model guarantees), the output
of `mask_russian` with debug enabled is the output with debug disabled
followed by the appended debug comment: the primary masked text is
identical. -/
theorem C8_debug_preserves_output (lid : FastTextLike) (text : String)
    (thr : ℚ) (min_len : ℕ) (margin : ℚ)
    (hdbg : ∀ tok ∈ py_split_ws text, ∃ ls cs,
      lid.predict (str_lower tok) 1 = .ok (ls, cs) ∧
      ls.isEmpty = false ∧ cs.isEmpty = false) :
    ∃ suffix, mask_russian lid text thr min_len margin true =
      mask_russian lid text thr min_len margin false ++ suffix := by
  obtain ⟨hrel_err, hrel_ok⟩ :=
    mask_loop_debug_rel lid thr min_len margin (py_split_ws text) hdbg
  rcases h : mask_loop lid thr min_len margin false (py_split_ws text) with
    e | ⟨ms, ds⟩
  · refine ⟨"", ?_⟩
    unfold mask_russian
    rw [h, hrel_err e h]
    simp only []
    rw [str_append_empty]
  · obtain ⟨ds', htrue⟩ := hrel_ok ms ds h
    unfold mask_russian
    rw [h, htrue]
    simp only [eq_self_iff_true, if_true, Bool.false_eq_true, if_false,
      ansi_strip]
    have hsplit : ("\n\n<!--debug " ++ dbg_json_list ds' ++ " -->").data =
        '\n' :: ("\n<!--debug " ++ dbg_json_list ds' ++ " -->").data := by
      rw [String.data_append, String.data_append, String.data_append,
        String.data_append]
      rfl
    rw [hsplit, strip_go_append_nl]
    exact ⟨String.mk ('\n' ::
      strip_go [] ("\n<!--debug " ++ dbg_json_list ds' ++ " -->").data),
      mk_append _ _⟩

/-- C8 witness: the debug output for the spec's concrete scenario is the
non-debug output followed by the appended debug comment. -/
theorem C8_debug_preserves_output_witness :
    ∃ suffix,
      mask_russian stub_scenario "привет мир hello" (mkRat 1 2) 3 (mkRat 1 10)
          true =
        mask_russian stub_scenario "привет мир hello" (mkRat 1 2) 3 (mkRat 1 10)
          false ++ suffix := by
  apply C8_debug_preserves_output
  intro tok htok
  rw [show py_split_ws "привет мир hello" = ["привет", "мир", "hello"]
    from by decide] at htok
  fin_cases htok
  · exact ⟨_, _, rfl, by decide, by decide⟩
  · exact ⟨_, _, rfl, by decide, by decide⟩
  · exact ⟨_, _, rfl, by decide, by decide⟩

/-! ## Claim theorems: registry resolution errors (C9) -/

theorem str_eq_of_data (s t : String) (h : s.data = t.data) : s = t := by
  obtain ⟨a⟩ := s
  obtain ⟨b⟩ := t
  simp only at h
  rw [h]

theorem starts_with_append (s t : List Char) :
    starts_with (s ++ t) s = true := by
  induction s with
  | nil => cases t <;> rfl
  | cons c cs ih => simp [starts_with, ih]

theorem contains_sub_append_left (a : List Char) :
    ∀ (b sub : List Char), contains_sub b sub = true →
    contains_sub (a ++ b) sub = true := by
  induction a with
  | nil => intro b sub h; exact h
  | cons c r ih =>
    intro b sub h
    rw [List.cons_append, contains_sub]
    rw [ih b sub h]
    simp

theorem contains_sub_starts (s t : List Char) :
    contains_sub (s ++ t) s = true := by
  cases s with
  | nil =>
    cases t with
    | nil => rfl
    | cons c r => rw [List.nil_append, contains_sub]; rfl
  | cons c cs =>
    rw [List.cons_append, contains_sub]
    simp [starts_with, starts_with_append]

theorem insort_mem_self (x : String) (l : List String) : x ∈ insort x l := by
  induction l with
  | nil => exact List.mem_cons_self x []
  | cons y ys ih =>
    rw [insort]
    by_cases h : chars_lt x.data y.data = true
    · rw [if_pos h]; exact List.mem_cons_self _ _
    · rw [if_neg h]; exact List.mem_cons_of_mem y ih

theorem insort_mem_of_mem (x y : String) (l : List String) (h : x ∈ l) :
    x ∈ insort y l := by
  induction l with
  | nil => exact absurd h (List.not_mem_nil x)
  | cons z zs ih =>
    rw [insort]
    by_cases hlt : chars_lt y.data z.data = true
    · rw [if_pos hlt]; exact List.mem_cons_of_mem y h
    · rw [if_neg hlt]
      rcases List.mem_cons.mp h with h' | h'
      · exact h' ▸ List.mem_cons_self z _
      · exact List.mem_cons_of_mem z (ih h')

theorem py_sorted_mem (x : String) (l : List String) (h : x ∈ l) :
    x ∈ py_sorted l := by
  induction l with
  | nil => exact absurd h (List.not_mem_nil x)
  | cons a as ih =>
    show x ∈ insort a (py_sorted as)
    rcases List.mem_cons.mp h with h' | h'
    · exact h' ▸ insort_mem_self x (py_sorted as)
    · exact insort_mem_of_mem x a _ (ih h')

theorem join_commas_mentions : ∀ (xs : List String) (x : String), x ∈ xs →
    contains_sub (join_commas xs).data x.data = true
  | [], x, h => absurd h (List.not_mem_nil x)
  | [y], x, h => by
    have hx : x = y := by simpa using h
    subst hx
    show contains_sub x.data x.data = true
    have := contains_sub_starts x.data []
    rwa [List.append_nil] at this
  | y :: z :: rest, x, h => by
    rcases List.mem_cons.mp h with h' | h'
    · subst h'
      show contains_sub (x ++ ", " ++ join_commas (z :: rest)).data x.data = true
      rw [String.data_append, String.data_append, List.append_assoc]
      exact contains_sub_starts x.data _
    · have ih := join_commas_mentions (z :: rest) x h'
      show contains_sub (y ++ ", " ++ join_commas (z :: rest)).data x.data = true
      rw [String.data_append]
      exact contains_sub_append_left _ _ _ ih

theorem split_once_eq : ∀ (l a b : List Char),
    split_once l = some (a, b) → l = a ++ '_' :: b := by
  intro l
  induction l with
  | nil => intro a b h; exact absurd h (by simp [split_once])
  | cons c r ih =>
    intro a b h
    rw [split_once] at h
    by_cases hc : c = '_'
    · rw [if_pos hc] at h
      obtain ⟨ha, hb⟩ := Prod.mk.injEq .. ▸ Option.some.inj h
      subst ha
      subst hb
      rw [List.nil_append, hc]
    · rw [if_neg hc] at h
      rcases hsp : split_once r with _ | ⟨a', b'⟩ <;> rw [hsp] at h
      · exact absurd h (by simp)
      · have h2 : (some (c :: a', b') : Option (List Char × List Char)) =
            some (a, b) := h
        obtain ⟨ha, hb⟩ := Prod.mk.injEq .. ▸ Option.some.inj h2
        subst hb
        rw [← ha, List.cons_append, ih a' b' hsp]

theorem assoc_add_mem : ∀ (acc : List (String × List String))
    (k f lang fmt : String),
    fmt ∈ (lookup_fmts (assoc_add acc k f) lang).getD [] →
    fmt ∈ (lookup_fmts acc lang).getD [] ∨ (k = lang ∧ f = fmt) := by
  intro acc
  induction acc with
  | nil =>
    intro k f lang fmt h
    rw [assoc_add, lookup_fmts] at h
    by_cases hk : k = lang
    · rw [if_pos hk] at h
      have : fmt = f := by simpa [lookup_fmts] using h
      exact Or.inr ⟨hk, this.symm⟩
    · rw [if_neg hk] at h
      exact absurd h (by simp [lookup_fmts])
  | cons p rest ih =>
    intro k f lang fmt h
    obtain ⟨k0, v0⟩ := p
    rw [assoc_add] at h
    by_cases hk0 : k0 = k
    · rw [if_pos hk0] at h
      rw [lookup_fmts] at h
      by_cases hlang : k0 = lang
      · rw [if_pos hlang] at h
        simp only [Option.getD_some] at h
        by_cases hf : f ∈ v0
        · rw [if_pos hf] at h
          exact Or.inl (by rw [lookup_fmts, if_pos hlang]; simpa using h)
        · rw [if_neg hf] at h
          rcases List.mem_append.mp h with h' | h'
          · exact Or.inl (by rw [lookup_fmts, if_pos hlang]; simpa using h')
          · have : fmt = f := by simpa using h'
            exact Or.inr ⟨hk0 ▸ hlang, this.symm⟩
      · rw [if_neg hlang] at h
        exact Or.inl (by rw [lookup_fmts, if_neg hlang]; exact h)
    · rw [if_neg hk0] at h
      rw [lookup_fmts] at h
      by_cases hlang : k0 = lang
      · rw [if_pos hlang] at h
        exact Or.inl (by rw [lookup_fmts, if_pos hlang]; exact h)
      · rw [if_neg hlang] at h
        rcases ih k f lang fmt h with h' | h'
        · exact Or.inl (by rw [lookup_fmts, if_neg hlang]; exact h')
        · exact Or.inr h'

theorem supported_foldl_mem : ∀ (files : List String)
    (acc : List (String × List String)) (lang fmt0 : String),
    fmt0 ∈ (lookup_fmts (files.foldl add_stem acc) lang).getD [] →
    fmt0 ∈ (lookup_fmts acc lang).getD [] ∨
      ∃ stem ∈ files, ∃ f, split_once stem.data = some (lang.data, f) ∧
        norm_fmt (String.mk f) = fmt0 := by
  intro files
  induction files with
  | nil => intro acc lang fmt0 h; exact Or.inl h
  | cons stem rest ih =>
    intro acc lang fmt0 h
    rw [List.foldl_cons] at h
    rcases ih (add_stem acc stem) lang fmt0 h with h' | ⟨stem', hmem, f, hsp, hn⟩
    · rw [add_stem] at h'
      rcases hsp : split_once stem.data with _ | ⟨l, f⟩ <;> rw [hsp] at h'
      · exact Or.inl h'
      · rcases assoc_add_mem acc (String.mk l) (norm_fmt (String.mk f)) lang
          fmt0 h' with h'' | ⟨hk, hf⟩
        · exact Or.inl h''
        · refine Or.inr ⟨stem, List.mem_cons_self stem rest, f, ?_, hf⟩
          have hl : l = lang.data := by
            have := congrArg String.data hk
            simpa using this
          rw [← hl]
          exact hsp
    · exact Or.inr ⟨stem', List.mem_cons_of_mem stem hmem, f, hsp, hn⟩

theorem fmt_supported_latin_rule (files : List String) (lang : String)
    (h : fmt_supported files lang "latin" = true) :
    ∃ r ∈ [lang ++ "_lat2023", lang ++ "_lat", lang ++ "_latin"], r ∈ files := by
  have hmem : "latin" ∈
      (lookup_fmts (get_supported_languages files) lang).getD [] := by
    simpa [fmt_supported] using h
  rcases supported_foldl_mem files [] lang "latin" hmem with h' |
    ⟨stem, hstem, f, hsp, hn⟩
  · exact absurd h' (by simp [lookup_fmts])
  · have hdata := split_once_eq stem.data lang.data f hsp
    rw [norm_fmt] at hn
    by_cases hlat : String.mk f = "lat2023" ∨ String.mk f = "lat"
    · rcases hlat with hf | hf
      · refine ⟨lang ++ "_lat2023", by simp, ?_⟩
        have : stem = lang ++ "_lat2023" := by
          apply str_eq_of_data
          rw [String.data_append, hdata]
          have : f = "lat2023".data := by
            have := congrArg String.data hf
            simpa using this
          rw [this]
        rwa [← this]
      · refine ⟨lang ++ "_lat", by simp, ?_⟩
        have : stem = lang ++ "_lat" := by
          apply str_eq_of_data
          rw [String.data_append, hdata]
          have : f = "lat".data := by
            have := congrArg String.data hf
            simpa using this
          rw [this]
        rwa [← this]
    · rw [if_neg hlat] at hn
      refine ⟨lang ++ "_latin", by simp, ?_⟩
      have : stem = lang ++ "_latin" := by
        apply str_eq_of_data
        rw [String.data_append, hdata]
        have : f = "latin".data := by
          have := congrArg String.data hn
          simpa using this
        rw [this]
      rwa [← this]

theorem fmt_supported_ipa_rule (files : List String) (lang : String)
    (h : fmt_supported files lang "ipa" = true) : (lang ++ "_ipa") ∈ files := by
  have hmem : "ipa" ∈
      (lookup_fmts (get_supported_languages files) lang).getD [] := by
    simpa [fmt_supported] using h
  rcases supported_foldl_mem files [] lang "ipa" hmem with h' |
    ⟨stem, hstem, f, hsp, hn⟩
  · exact absurd h' (by simp [lookup_fmts])
  · have hdata := split_once_eq stem.data lang.data f hsp
    rw [norm_fmt] at hn
    by_cases hlat : String.mk f = "lat2023" ∨ String.mk f = "lat"
    · rw [if_pos hlat] at hn
      exact absurd hn (by decide)
    · rw [if_neg hlat] at hn
      have : stem = lang ++ "_ipa" := by
        apply str_eq_of_data
        rw [String.data_append, hdata]
        have : f = "ipa".data := by
          have := congrArg String.data hn
          simpa using this
        rw [this]
      rwa [← this]

/-- C9 counterexample: the `to_latin` error for an unsupported pair does NOT
enumerate what is available for the requested language.  With rule files
`tr_ipa` and `kk_lat`, language `tr` supports exactly `ipa`, yet the error
message never mentions `ipa` — it enumerates the languages supporting Latin
instead. -/
theorem C9_registry_counterexample :
    to_latin ["tr_ipa", "kk_lat"] (fun _ t => t) (fun t => t) "x" "tr" false =
      .error "Latin transliteration not supported for 'tr'. Available languages: kk" ∧
    lookup_fmts (get_supported_languages ["tr_ipa", "kk_lat"]) "tr" =
      some ["ipa"] ∧
    error_enumerates_lang_formats ["tr_ipa", "kk_lat"] "tr"
      "Latin transliteration not supported for 'tr'. Available languages: kk" =
      false := by
  refine ⟨by decide, by decide, by decide⟩

/-- C9 (amended): for every unsupported (language, representation) pair the
resolve operation fails with the descriptive message enumerating, sorted,
the languages that DO support the requested representation (never a bare
lookup failure), and for every supported pair it succeeds — the secondary
"no rules file found" error is unreachable. -/
theorem C9_registry_errors_amended (files : List String)
    (icu : String → String → String) (nfc : String → String)
    (text lang : String) (ia : Bool) :
    (fmt_supported files lang "latin" = false →
      to_latin files icu nfc text lang ia =
        .error (latin_unsupported_msg files lang) ∧
      ∀ l ∈ langs_supporting files "latin",
        contains_sub (latin_unsupported_msg files lang).data l.data = true) ∧
    (fmt_supported files lang "latin" = true →
      ∃ out, to_latin files icu nfc text lang ia = .ok out) ∧
    (fmt_supported files lang "ipa" = false →
      to_ipa files icu nfc text lang =
        .error (ipa_unsupported_msg files lang) ∧
      ∀ l ∈ langs_supporting files "ipa",
        contains_sub (ipa_unsupported_msg files lang).data l.data = true) ∧
    (fmt_supported files lang "ipa" = true →
      ∃ out, to_ipa files icu nfc text lang = .ok out) := by
  refine ⟨?_, ?_, ?_, ?_⟩
  · intro h
    constructor
    · unfold to_latin
      rw [if_pos (by rw [h]; exact Bool.false_ne_true)]
    · intro l hl
      unfold latin_unsupported_msg
      rw [String.data_append]
      exact contains_sub_append_left _ _ _
        (join_commas_mentions _ l (py_sorted_mem l _ hl))
  · intro h
    unfold to_latin
    rw [if_neg (by rw [h]; simp)]
    obtain ⟨r, hr, hrf⟩ := fmt_supported_latin_rule files lang h
    rcases hfind : List.find? (fun r => decide (r ∈ files))
        [lang ++ "_lat2023", lang ++ "_lat", lang ++ "_latin"] with _ | rf
    · exact absurd (List.find?_eq_none.mp hfind r hr) (by simp [hrf])
    · exact ⟨_, rfl⟩
  · intro h
    constructor
    · unfold to_ipa
      rw [if_pos (by rw [h]; exact Bool.false_ne_true)]
    · intro l hl
      unfold ipa_unsupported_msg
      rw [String.data_append]
      exact contains_sub_append_left _ _ _
        (join_commas_mentions _ l (py_sorted_mem l _ hl))
  · intro h
    unfold to_ipa
    rw [if_neg (by rw [h]; simp)]
    rw [if_neg (by simp [fmt_supported_ipa_rule files lang h])]
    exact ⟨_, rfl⟩

/-- C9 witness: with rule files `kk_lat2023` and `tr_ipa`: Latin for `tr`
fails with the descriptive message mentioning `kk`; Latin for `kk`
succeeds; IPA for `kk` fails with the descriptive message mentioning `tr`;
IPA for `tr` succeeds. -/
theorem C9_registry_errors_amended_witness :
    (to_latin ["kk_lat2023", "tr_ipa"] (fun _ t => t) (fun t => t) "x" "tr"
        false =
      .error (latin_unsupported_msg ["kk_lat2023", "tr_ipa"] "tr") ∧
      contains_sub (latin_unsupported_msg ["kk_lat2023", "tr_ipa"] "tr").data
        "kk".data = true) ∧
    (∃ out, to_latin ["kk_lat2023", "tr_ipa"] (fun _ t => t) (fun t => t) "x"
        "kk" false = .ok out) ∧
    (to_ipa ["kk_lat2023", "tr_ipa"] (fun _ t => t) (fun t => t) "x" "kk" =
      .error (ipa_unsupported_msg ["kk_lat2023", "tr_ipa"] "kk") ∧
      contains_sub (ipa_unsupported_msg ["kk_lat2023", "tr_ipa"] "kk").data
        "tr".data = true) ∧
    (∃ out, to_ipa ["kk_lat2023", "tr_ipa"] (fun _ t => t) (fun t => t) "x"
        "tr" = .ok out) := by
  refine ⟨?_, ?_, ?_, ?_⟩
  · refine ⟨(C9_registry_errors_amended ["kk_lat2023", "tr_ipa"] (fun _ t => t)
      (fun t => t) "x" "tr" false).1 (by decide) |>.1, ?_⟩
    exact (C9_registry_errors_amended ["kk_lat2023", "tr_ipa"] (fun _ t => t)
      (fun t => t) "x" "tr" false).1 (by decide) |>.2 "kk" (by decide)
  · exact (C9_registry_errors_amended ["kk_lat2023", "tr_ipa"] (fun _ t => t)
      (fun t => t) "x" "kk" false).2.1 (by decide)
  · refine ⟨(C9_registry_errors_amended ["kk_lat2023", "tr_ipa"] (fun _ t => t)
      (fun t => t) "x" "kk" false).2.2.1 (by decide) |>.1, ?_⟩
    exact (C9_registry_errors_amended ["kk_lat2023", "tr_ipa"] (fun _ t => t)
      (fun t => t) "x" "kk" false).2.2.1 (by decide) |>.2 "tr" (by decide)
  · exact (C9_registry_errors_amended ["kk_lat2023", "tr_ipa"] (fun _ t => t)
      (fun t => t) "x" "tr" false).2.2.2 (by decide)
